import Mathlib

/-!
# clone-leeroy: the per-repository reconciliation of `src/index.js`

A shallow embedding of `processSubmodule` and its helpers (`clone`, `checkRemote`,
`changeRemoteUrl`, `fetchOrigin`, `checkBranch`, `checkoutBranch`, `fetchTags`, `pull`,
`exec_git`) and of the final part of the top-level promise chain (`Promise.all` and the
closing `catch`).

* A promise is modelled by the way it settles (`Settled`) together with the state it leaves.
* `child_process.exec` and `fs.exists` are the environment: a deterministic state machine
  `World σ` answers every command from its current state.
* JavaScript values that reach `submodule.log` are strings or `Error` objects (`JsValue`).
* The state records the array `_logs` of the submodule object, the calls of `exec_git` in
  the order they were issued, and the lines written with `console.log`.
-/

namespace CloneLeeroy

/-! ## JavaScript values and strings -/

/-- A JavaScript value that can be thrown, rejected with, or handed to `submodule.log`:
a primitive string, or an `Error` object with its `name` and `message`. -/
inductive JsValue where
  | str (s : String)
  | error (name message : String)
deriving DecidableEq, Repr

/-- How a promise settles. -/
inductive Settled (α : Type) where
  | resolved (value : α)
  | rejected (reason : JsValue)
deriving DecidableEq, Repr

/-- The white space and line terminators removed by `String.prototype.trim`. -/
def isJsWhiteSpace (c : Char) : Bool :=
  c.val.toNat ∈ [0x09, 0x0A, 0x0B, 0x0C, 0x0D, 0x20, 0xA0, 0x1680, 0x2028, 0x2029,
    0x202F, 0x205F, 0x3000, 0xFEFF] || (0x2000 ≤ c.val.toNat && c.val.toNat ≤ 0x200A)

/-- The method `trim()` of a string. -/
def trim (s : String) : String :=
  String.mk ((s.data.dropWhile isJsWhiteSpace).reverse.dropWhile isJsWhiteSpace).reverse

/-- Splitting of a character list at every match of the regular expression `/\r?\n/`. -/
def splitLinesChars : List Char → List (List Char)
  | [] => [[]]
  | '\r' :: '\n' :: rest => [] :: splitLinesChars rest
  | '\n' :: rest => [] :: splitLinesChars rest
  | c :: rest =>
    match splitLinesChars rest with
    | [] => [[c]]
    | line :: lines => (c :: line) :: lines

/-- The call `message.split(/\r?\n/)`. -/
def splitLines (message : String) : List String :=
  (splitLinesChars message.data).map String.mk

/-- Splitting of a character list at every `/`. -/
def splitSlashChars : List Char → List (List Char)
  | [] => [[]]
  | c :: rest =>
    if c = '/' then [] :: splitSlashChars rest
    else
      match splitSlashChars rest with
      | [] => [[c]]
      | part :: parts => (c :: part) :: parts

/-- The call `name.split('/')`. -/
def splitSlash (name : String) : List String :=
  (splitSlashChars name.data).map String.mk

/-- A template-literal substitution of a value that is a string or `undefined`. -/
def interpolate : Option String → String
  | some s => s
  | none => "undefined"

/-- The method `Error.prototype.toString` on an error with the given name and message. -/
def errorToString (name message : String) : String :=
  if name = "" then message
  else if message = "" then name
  else name ++ ": " ++ message

/-! ## The environment -/

/-- The `Error` object that `child_process.exec` hands to its callback when the command
fails or cannot be spawned. Only its message is kept; Node builds it as
`Command failed: ...` or from a system error, never empty. -/
structure ExecError where
  message : String
  nonempty : message ≠ ""
deriving DecidableEq

/-- What `child_process.exec` hands to its callback: an error, or the standard output of
the command. -/
inductive ExecOutcome where
  | failed (error : ExecError)
  | ok (stdout : String)
deriving DecidableEq

/-- The environment of one reconciliation: `fs.exists` and `child_process.exec`, as a
deterministic machine over states `σ`. `fs.exists` of `q-io` answers with a boolean and is
never rejected. `exec` receives the command line and `options.cwd` (`none` when the option
is absent or `undefined`). The entries `options.env.HOME` and `options.env.SSH_AUTH_SOCK`
are the same in every call and are part of the environment. -/
structure World (σ : Type) where
  fsExists : σ → Option String → Bool
  exec : σ → String → Option String → ExecOutcome × σ

/-- One call of `exec_git`: its arguments and the outcome of the subprocess. -/
structure Issued where
  args : String
  cwd : Option String
  outcome : ExecOutcome
deriving DecidableEq

/-! ## The submodule object -/

/-- The fields of the object `submodule` that are never assigned after its construction;
`repo` is `undefined` (`none`) when the identifier has no `/`. The array `_logs`, the only
part of the object that changes, is kept in the state `Run`. -/
structure Submodule where
  owner : String
  repo : Option String
  branch : String
  remoteUrl : String
deriving DecidableEq, Repr

/-- The lines that `log(message, indent)` appends for a string `message`:
`message.split(/\r?\n/).map(line => Array(indent + 1).join(' ') + line)`. -/
def logLines (message : String) (indent : Nat) : List String :=
  (splitLines message).map (fun line => String.mk (List.replicate indent ' ') ++ line)

/-- The method `log(message, indent)` as a function of `_logs`. A value that is not a
string has no method `split`, so the call throws a `TypeError`. -/
def log (message : JsValue) (indent : Nat) (_logs : List String) :
    Except JsValue (List String) :=
  match message with
  | .str s => .ok (_logs ++ logLines s indent)
  | .error _ _ => .error (.error "TypeError" "message.split is not a function")

/-- The method `output()`: `this._logs.join(os.EOL)`. -/
def output (eol : String) (_logs : List String) : String :=
  eol.intercalate _logs

/-- The state of one reconciliation: the environment, the array `_logs`, the calls of
`exec_git` so far and the lines written with `console.log`. -/
structure Run (σ : Type) where
  world : σ
  _logs : List String
  issued : List Issued
  console : List String

/-- An asynchronous step: from a state to the way its promise settles and the state then. -/
abbrev Step (σ : Type) (α : Type) := Run σ → Settled α × Run σ

/-- The method `then` with a fulfilment handler. -/
def Step.andThen {σ α β : Type} (p : Step σ α) (f : α → Step σ β) : Step σ β := fun st =>
  match p st with
  | (.resolved a, st1) => f a st1
  | (.rejected e, st1) => (.rejected e, st1)

/-- The method `catch`. -/
def Step.orCatch {σ α : Type} (p : Step σ α) (h : JsValue → Step σ α) : Step σ α := fun st =>
  match p st with
  | (.resolved a, st1) => (.resolved a, st1)
  | (.rejected e, st1) => h e st1

/-- A promise whose fulfilment value is not used by what follows. -/
def Step.discard {σ α : Type} (p : Step σ α) : Step σ Unit :=
  p.andThen (fun _ st => (.resolved (), st))

/-- A synchronous call of `submodule.log` inside a handler: a throw rejects the promise. -/
def logStep {σ : Type} (message : JsValue) (indent : Nat) : Step σ Unit := fun st =>
  match log message indent st._logs with
  | .ok logs => (.resolved (), { st with _logs := logs })
  | .error e => (.rejected e, st)

/-! ## The helpers of `processSubmodule` -/

/-- The callback that `exec_git` gives to `exec`: `reject(error)` on an error, otherwise
`resolve(stdout.toString().trim())`. -/
def settle : ExecOutcome → Settled String
  | .failed error => .rejected (.error "Error" error.message)
  | .ok stdout => .resolved (trim stdout)

/-- The function `exec_git(args, options)`: runs `git ${args}` and settles with the
callback above. -/
def exec_git {σ : Type} (w : World σ) (args : String) (cwd : Option String) : Step σ String :=
  fun st =>
    let result := w.exec st.world ("git " ++ args) cwd
    (settle result.1,
      { st with world := result.2, issued := st.issued ++ [⟨args, cwd, result.1⟩] })

/-- The function `clone(submodule)`. -/
def clone {σ : Type} (w : World σ) (submodule : Submodule) : Step σ String :=
  (logStep (.str ("Directory " ++ interpolate submodule.repo ++
      " does not exist; cloning it.")) 2).andThen (fun _ =>
    exec_git w ("clone --recursive --branch " ++ submodule.branch ++ " " ++
      submodule.remoteUrl) none)

/-- The function `changeRemoteUrl(submodule)`. -/
def changeRemoteUrl {σ : Type} (w : World σ) (submodule : Submodule) : Step σ String :=
  (exec_git w "remote rm origin" submodule.repo).andThen (fun _ =>
    exec_git w ("remote add origin " ++ submodule.remoteUrl) submodule.repo)

/-- The function `checkRemote(submodule)`. -/
def checkRemote {σ : Type} (w : World σ) (submodule : Submodule) : Step σ Unit :=
  (exec_git w "config --get remote.origin.url" submodule.repo).andThen
    (fun currentRemoteUrl =>
      if currentRemoteUrl ≠ submodule.remoteUrl then
        (logStep (.str ("Changing origin URL from " ++ currentRemoteUrl ++ " to " ++
            submodule.remoteUrl)) 2).andThen (fun _ =>
          (changeRemoteUrl w submodule).discard)
      else fun st => (.resolved (), st))

/-- The function `fetchOrigin(submodule)`. -/
def fetchOrigin {σ : Type} (w : World σ) (submodule : Submodule) : Step σ String :=
  (logStep (.str "Fetching commits from origin...") 2).andThen (fun _ =>
    exec_git w "fetch origin" submodule.repo)

/-- The command chosen by `checkoutBranch(submodule, isNewBranch)`; `isNewBranch` is
`none` when the argument is omitted (`undefined`, which is falsy). -/
def checkoutCommand (branch : String) (isNewBranch : Option Bool) : String :=
  if isNewBranch = some true then "checkout -B " ++ branch ++ " --track origin/" ++ branch
  else "checkout " ++ branch

/-- The function `checkoutBranch(submodule, isNewBranch)`. -/
def checkoutBranch {σ : Type} (w : World σ) (submodule : Submodule)
    (isNewBranch : Option Bool) : Step σ String :=
  exec_git w (checkoutCommand submodule.branch isNewBranch) submodule.repo

/-- The function `fetchTags(submodule)`. -/
def fetchTags {σ : Type} (w : World σ) (submodule : Submodule) : Step σ String :=
  exec_git w "fetch --tags" submodule.repo

/-- The part of `checkBranch` that runs when the current branch is not the target: the
branch query with the first checkout, and the handler `err => ...` that fetches the tags
and retries. The value `err` is the `Error` object of `exec`, and it is handed unchanged
to `submodule.log` when the recovery fails too. -/
def switchBranch {σ : Type} (w : World σ) (submodule : Submodule) : Step σ Unit :=
  Step.orCatch
    ((exec_git w ("branch --list -q --no-color " ++ submodule.branch) submodule.repo).andThen
      (fun existingTargetBranch =>
        (checkoutBranch w submodule
          (some (decide (existingTargetBranch = submodule.branch)))).discard))
    (fun err =>
      Step.orCatch
        ((fetchTags w submodule).andThen (fun _ => (checkoutBranch w submodule none).discard))
        (fun _ => logStep err 0))

/-- The function `checkBranch(submodule)`. -/
def checkBranch {σ : Type} (w : World σ) (submodule : Submodule) : Step σ Unit :=
  (exec_git w "symbolic-ref --short -q HEAD" submodule.repo).andThen
    (fun currentBranch =>
      if currentBranch = submodule.branch then fun st => (.resolved (), st)
      else
        (logStep (.str ("Switching branches from " ++ currentBranch ++ " to " ++
            submodule.branch)) 2).andThen (fun _ => switchBranch w submodule))

/-- The function `pull(submodule)`. -/
def pull {σ : Type} (w : World σ) (submodule : Submodule) : Step σ Unit :=
  (exec_git w ("pull --rebase origin " ++ submodule.branch) submodule.repo).andThen
    (fun pullOutput =>
      (exec_git w "submodule update --init --recursive" submodule.repo).andThen
        (fun _ => logStep (.str pullOutput) 2))

/-- The value of `error.message || error` in the final handler of `processSubmodule`. -/
def messageOrError : JsValue → JsValue
  | .str s => .str s
  | .error name message => if message = "" then .error name message else .str message

/-- The object literal of `processSubmodule` (lines 132 to 143), without `_logs`. -/
def newSubmodule (name branch : String) : Submodule :=
  let parts := splitSlash name
  let owner := parts.headD ""
  let repo := parts.get? 1
  { owner := owner,
    repo := repo,
    branch := branch,
    remoteUrl := "git@git.faithlife.dev:" ++ owner ++ "/" ++ interpolate repo ++ ".git" }

/-- The promise `fs.exists(submodule.repo).then(exists => ...)` of `processSubmodule`
(lines 146 to 154): a clone when the directory is missing, otherwise remote check, fetch,
branch check and pull. -/
def reconcile {σ : Type} (w : World σ) (submodule : Submodule) : Step σ Unit := fun st =>
  if !(w.fsExists st.world submodule.repo) then
    (clone w submodule).discard st
  else
    ((checkRemote w submodule).andThen (fun _ =>
      (fetchOrigin w submodule).andThen (fun _ =>
        (checkBranch w submodule).andThen (fun _ => pull w submodule)))) st

/-- The two handlers that `processSubmodule` attaches to that promise: `console.log` of
the output on fulfilment, and on rejection the log of `error.message || error` followed by
`Promise.reject(submodule.output())`. -/
def report {σ : Type} (eol : String) (p : Step σ Unit) : Step σ Unit :=
  Step.orCatch
    (p.andThen (fun _ st =>
      (.resolved (), { st with console := st.console ++ [output eol st._logs] })))
    (fun error =>
      (logStep (messageOrError error) 2).andThen (fun _ st =>
        (.rejected (.str (output eol st._logs)), st)))

/-- The state in which `processSubmodule` calls `fs.exists`: nothing issued or printed
yet, and `_logs` holding the line of `submodule.log("Processing " + name)`. -/
def initialRun {σ : Type} (name : String) (s : σ) : Run σ :=
  { world := s, _logs := logLines ("Processing " ++ name) 0, issued := [], console := [] }

/-- The function `processSubmodule(name, config)`, with `branch = config.submodules[name]`,
`eol = os.EOL` and `s` the state of the environment when it starts. -/
def processSubmodule {σ : Type} (w : World σ) (eol : String) (name branch : String) (s : σ) :
    Settled Unit × Run σ :=
  report eol (reconcile w (newSubmodule name branch)) (initialRun name s)

/-! ## The end of the top-level promise chain -/

/-- What the program has written and the exit code it has set (`none` while
`process.exitCode` is left `undefined`, the successful exit). -/
structure Process where
  stdout : List String
  stderr : List String
  exitCode : Option Nat
deriving DecidableEq, Repr

/-- The promise `Promise.all(promises)`, the promises being listed in the order in which
they settle: it is rejected with the reason of the first promise to be rejected, and
fulfilled when every promise is. -/
def promiseAll {α : Type} : List (Settled α) → Settled (List α)
  | [] => .resolved []
  | .rejected reason :: _ => .rejected reason
  | .resolved value :: rest =>
    match promiseAll rest with
    | .resolved values => .resolved (value :: values)
    | .rejected reason => .rejected reason

/-- The text in the final handler of the chain, ``error.message || `Error: ${error}` ``. -/
def errorText : JsValue → String
  | .str s => "Error: " ++ s
  | .error name message =>
    if message = "" then "Error: " ++ errorToString name message else message

/-- The last two links of the top-level chain (lines 42 to 50), entered once
`createSolutionInfos()` is fulfilled: one `processSubmodule` per key of
`config.submodules`, `Promise.all`, and the final `catch`. The entries of `submodules` are
listed in the order in which their reconciliations settle, and `start name` is the state
of the environment that the reconciliation of `name` works against. -/
def fleet {σ : Type} (w : World σ) (eol : String) (start : String → σ)
    (submodules : List (String × String)) : Process :=
  let promises := submodules.map
    (fun entry => processSubmodule w eol entry.1 entry.2 (start entry.1))
  let stdout := (promises.map (fun promise => promise.2.console)).flatten
  match promiseAll (promises.map (fun promise => promise.1)) with
  | .resolved _ => { stdout := stdout, stderr := [], exitCode := none }
  | .rejected error =>
    { stdout := stdout,
      stderr := ["\x1b[31m" ++ errorText error ++ "\x1b[0m"],
      exitCode := some 1 }

/-! ## Vocabulary of the statements -/

/-- The arguments of a checkout, in either form. -/
def isCheckout (args : String) : Bool :=
  "checkout ".data.isPrefixOf args.data

/-- The arguments of the commands of the branch switch: the branch query, a checkout in
either form, and the fetch of the tags. -/
def isBranchSwitch (args : String) : Bool :=
  "branch --list ".data.isPrefixOf args.data || isCheckout args || args == "fetch --tags"

/-- The arguments of the two commands that replace the remote. -/
def isRemoteChange (args : String) : Bool :=
  args == "remote rm origin" || "remote add origin ".data.isPrefixOf args.data

/-- The arguments and the working directory of a call, without its outcome. -/
def Issued.call (c : Issued) : String × Option String :=
  (c.args, c.cwd)

/-- The text occurs in a line that the program has written, on either stream. -/
def Process.printed (p : Process) (text : String) : Prop :=
  ∃ line ∈ p.stdout ++ p.stderr, text.data <:+: line.data

/-- Every call that a step issues satisfies `Q`, from whatever state it starts. -/
def Step.Issues {σ α : Type} (p : Step σ α) (Q : Issued → Prop) : Prop :=
  ∀ st, ∃ new, (p st).2.issued = st.issued ++ new ∧ ∀ c ∈ new, Q c

/-- A call outside the branch switch that fails is the last call of the step, and the
step is rejected with the error of that call. -/
def Step.FailLast {σ α : Type} (p : Step σ α) : Prop :=
  ∀ st, ∃ new, (p st).2.issued = st.issued ++ new ∧
    ∀ c ∈ new, ∀ e, c.outcome = .failed e → isBranchSwitch c.args = false →
      new.getLast? = some c ∧ (p st).1 = .rejected (.error "Error" e.message)

/-- A step is only ever rejected with an error object whose message is not empty. -/
def Step.RejectsError {σ α : Type} (p : Step σ α) : Prop :=
  ∀ st reason st1, p st = (.rejected reason, st1) →
    ∃ name message, reason = .error name message ∧ message ≠ ""

/-! ## Environments for the examples -/

/-- An environment without state: every directory exists or none does, and a command is
answered from a table, with empty output when it is not listed. -/
def scripted (dirExists : Bool) (script : List (String × ExecOutcome)) : World Unit :=
  { fsExists := fun _ _ => dirExists,
    exec := fun _ command _ => ((script.lookup command).getD (.ok ""), ()) }

/-- The repository `widgets` with the canonical origin and `develop` checked out. -/
def onDevelop : List (String × ExecOutcome) :=
  [("git config --get remote.origin.url", .ok "git@git.faithlife.dev:acme/widgets.git\n"),
   ("git symbolic-ref --short -q HEAD", .ok "develop\n")]

/-- The calls that a reconciliation of `submodule` can issue: the clone, without working
directory, and the other commands, inside the directory `submodule.repo`. -/
def Known (submodule : Submodule) (c : Issued) : Prop :=
  (c.cwd = none ∧
    c.args = "clone --recursive --branch " ++ submodule.branch ++ " " ++ submodule.remoteUrl) ∨
  (c.cwd = submodule.repo ∧
    c.args ∈ ["config --get remote.origin.url", "remote rm origin",
      "remote add origin " ++ submodule.remoteUrl, "fetch origin",
      "symbolic-ref --short -q HEAD", "branch --list -q --no-color " ++ submodule.branch,
      "checkout " ++ submodule.branch,
      "checkout -B " ++ submodule.branch ++ " --track origin/" ++ submodule.branch,
      "fetch --tags", "pull --rebase origin " ++ submodule.branch,
      "submodule update --init --recursive"])

/-- An error of `git` when the remote cannot be reached. -/
def remoteDown : ExecError :=
  ⟨"fatal: unable to access\nthe remote", by decide⟩

/-- The repository `widgets` on `develop`, with a failing `fetch origin`. -/
def fetchFails : World Unit :=
  scripted true (onDevelop ++ [("git fetch origin", .failed remoteDown)])

/-- No directory exists and every command succeeds. -/
def freshClone : World Unit :=
  scripted false []

/-- An error of `git clone`. -/
def notFound : ExecError :=
  ⟨"fatal: repository not found", by decide⟩

/-- No directory exists and the clones of `acme/one` and `acme/two` both fail. -/
def bothClonesFail : World Unit :=
  scripted false
    [("git clone --recursive --branch main git@git.faithlife.dev:acme/one.git", .failed notFound),
     ("git clone --recursive --branch main git@git.faithlife.dev:acme/two.git", .failed notFound)]

/-- Every directory exists, `main` is checked out and every command succeeds. -/
def onMain : World Unit :=
  scripted true [("git symbolic-ref --short -q HEAD", .ok "main\n")]

/-- An error of `git checkout`. -/
def checkoutRefused : ExecError :=
  ⟨"error: Your local changes would be overwritten by checkout", by decide⟩

/-- The repository `widgets` on `develop` with a local branch `main`, every command
succeeding. -/
def localMain : World Unit :=
  scripted true (onDevelop ++ [("git branch --list -q --no-color main", .ok "  main\n")])

/-- The repository `widgets` on `develop` with a local branch `main`, where the checkout
that follows the branch query fails. -/
def localMainRefused : World Unit :=
  scripted true (onDevelop ++ [("git branch --list -q --no-color main", .ok "  main\n"),
    ("git checkout -B main --track origin/main", .failed checkoutRefused)])

/-- An error of `git checkout` for a name that is not known. -/
def unknownPathspec : ExecError :=
  ⟨"error: pathspec main did not match any file(s) known to git", by decide⟩

/-- The repository `widgets` on `develop` without a local branch `main`, every command
succeeding. -/
def remoteMain : World Unit :=
  scripted true onDevelop

/-- The repository `widgets` on `develop` where `main` is known neither locally nor on
the remote: `checkout main` fails, before and after the fetch of the tags. -/
def missingMain : World Unit :=
  scripted true (onDevelop ++ [("git checkout main", .failed unknownPathspec)])

/-- An environment with a state, whether the tags have been fetched: the repository
`widgets` on `develop`, where `main` can be checked out only after `fetch --tags`. -/
def mainAfterTags : World Bool :=
  { fsExists := fun _ _ => true,
    exec := fun fetched command _ =>
      if command = "git config --get remote.origin.url" then
        (.ok "git@git.faithlife.dev:acme/widgets.git\n", fetched)
      else if command = "git symbolic-ref --short -q HEAD" then (.ok "develop\n", fetched)
      else if command = "git fetch --tags" then (.ok "", true)
      else if command = "git checkout main" ∧ fetched = false then
        (.failed unknownPathspec, fetched)
      else (.ok "", fetched) }

/-- An error of `git remote rm`. -/
def configLocked : ExecError :=
  ⟨"error: could not lock config file .git/config: File exists", by decide⟩

/-- The repository `widgets` on `main` whose origin is an HTTPS URL, every command
succeeding. -/
def staleRemote : World Unit :=
  scripted true
    [("git config --get remote.origin.url", .ok "https://git.faithlife.dev/acme/widgets.git\n"),
     ("git symbolic-ref --short -q HEAD", .ok "main\n")]

/-- The repository `widgets` on `main` whose origin is an HTTPS URL and whose
configuration cannot be written: `remote rm origin` fails. -/
def staleRemoteLocked : World Unit :=
  scripted true
    [("git config --get remote.origin.url", .ok "https://git.faithlife.dev/acme/widgets.git\n"),
     ("git symbolic-ref --short -q HEAD", .ok "main\n"),
     ("git remote rm origin", .failed configLocked)]

set_option maxRecDepth 1000000

/-! ## Strings -/

theorem splitSlashChars_of_not_mem (cs : List Char) (h : '/' ∉ cs) :
    splitSlashChars cs = [cs] := by
  induction cs with
  | nil => rfl
  | cons c cs ih =>
    simp only [List.mem_cons, not_or] at h
    have hc : c ≠ '/' := fun e => h.1 e.symm
    simp [splitSlashChars, hc, ih h.2]

theorem splitSlashChars_append (cs ds : List Char) (h : '/' ∉ cs) :
    splitSlashChars (cs ++ '/' :: ds) = cs :: splitSlashChars ds := by
  induction cs with
  | nil => simp [splitSlashChars]
  | cons c cs ih =>
    simp only [List.mem_cons, not_or] at h
    have hc : c ≠ '/' := fun e => h.1 e.symm
    simp [splitSlashChars, hc, ih h.2]

theorem splitSlash_owner_repo (owner repo : String)
    (ho : '/' ∉ owner.data) (hr : '/' ∉ repo.data) :
    splitSlash (owner ++ "/" ++ repo) = [owner, repo] := by
  have h : (owner ++ "/" ++ repo).data = owner.data ++ '/' :: repo.data := by
    simp [String.data_append]
  simp [splitSlash, h, splitSlashChars_append _ _ ho, splitSlashChars_of_not_mem _ hr]

theorem newSubmodule_owner_repo (owner repo branch : String)
    (ho : '/' ∉ owner.data) (hr : '/' ∉ repo.data) :
    newSubmodule (owner ++ "/" ++ repo) branch =
      { owner := owner, repo := some repo, branch := branch,
        remoteUrl := "git@git.faithlife.dev:" ++ owner ++ "/" ++ repo ++ ".git" } := by
  simp [newSubmodule, splitSlash_owner_repo owner repo ho hr, interpolate]

/-! ## Rules for the calls that a step issues -/

theorem issues_mono {σ α : Type} (p : Step σ α) (Q R : Issued → Prop)
    (h : p.Issues Q) (hQR : ∀ c, Q c → R c) : p.Issues R := by
  intro st
  obtain ⟨new, hn, hq⟩ := h st
  exact ⟨new, hn, fun c hc => hQR c (hq c hc)⟩

theorem issues_exec_git {σ : Type} (w : World σ) (args : String) (cwd : Option String)
    (Q : Issued → Prop) (h : ∀ o, Q ⟨args, cwd, o⟩) : (exec_git w args cwd).Issues Q := by
  intro st
  exact ⟨[⟨args, cwd, (w.exec st.world ("git " ++ args) cwd).1⟩], rfl, by simpa using h _⟩

theorem issues_logStep {σ : Type} (message : JsValue) (indent : Nat) (Q : Issued → Prop) :
    (logStep message indent : Step σ Unit).Issues Q := by
  intro st
  refine ⟨[], ?_, by simp⟩
  unfold logStep
  split <;> simp

theorem issues_pure {σ α : Type} (a : α) (Q : Issued → Prop) :
    Step.Issues (fun st => (Settled.resolved a, st) : Step σ α) Q :=
  fun st => ⟨[], by simp, by simp⟩

theorem issues_andThen {σ α β : Type} (p : Step σ α) (f : α → Step σ β) (Q : Issued → Prop)
    (hp : p.Issues Q) (hf : ∀ a, (f a).Issues Q) : (p.andThen f).Issues Q := by
  intro st
  obtain ⟨n1, h1, q1⟩ := hp st
  unfold Step.andThen
  rcases hps : p st with ⟨r, st1⟩
  rw [hps] at h1
  cases r with
  | resolved a =>
    obtain ⟨n2, h2, q2⟩ := hf a st1
    refine ⟨n1 ++ n2, ?_, ?_⟩
    · simp only [h2]
      simp only at h1
      rw [h1, List.append_assoc]
    · intro c hc
      rcases List.mem_append.1 hc with h | h
      · exact q1 c h
      · exact q2 c h
  | rejected e => exact ⟨n1, h1, q1⟩

theorem issues_orCatch {σ α : Type} (p : Step σ α) (f : JsValue → Step σ α)
    (Q : Issued → Prop) (hp : p.Issues Q) (hf : ∀ e, (f e).Issues Q) :
    (p.orCatch f).Issues Q := by
  intro st
  obtain ⟨n1, h1, q1⟩ := hp st
  unfold Step.orCatch
  rcases hps : p st with ⟨r, st1⟩
  rw [hps] at h1
  cases r with
  | rejected e =>
    obtain ⟨n2, h2, q2⟩ := hf e st1
    refine ⟨n1 ++ n2, ?_, ?_⟩
    · simp only [h2]
      simp only at h1
      rw [h1, List.append_assoc]
    · intro c hc
      rcases List.mem_append.1 hc with h | h
      · exact q1 c h
      · exact q2 c h
  | resolved a => exact ⟨n1, h1, q1⟩

theorem issues_discard {σ α : Type} (p : Step σ α) (Q : Issued → Prop) (hp : p.Issues Q) :
    p.discard.Issues Q :=
  issues_andThen p _ Q hp (fun _ => issues_pure () Q)

/-! ## Rules for a failing call outside the branch switch -/

theorem failLast_exec_git {σ : Type} (w : World σ) (args : String) (cwd : Option String) :
    (exec_git w args cwd).FailLast := by
  intro st
  refine ⟨[⟨args, cwd, (w.exec st.world ("git " ++ args) cwd).1⟩], rfl, ?_⟩
  intro c hc e he _
  simp only [List.mem_singleton] at hc
  subst hc
  simp only at he
  exact ⟨rfl, by simp [exec_git, he, settle]⟩

theorem failLast_of_issues {σ α : Type} (p : Step σ α)
    (h : p.Issues (fun c => isBranchSwitch c.args = true)) : p.FailLast := by
  intro st
  obtain ⟨new, hn, hq⟩ := h st
  refine ⟨new, hn, ?_⟩
  intro c hc e _ hb
  have := hq c hc
  simp [hb] at this

theorem failLast_logStep {σ : Type} (message : JsValue) (indent : Nat) :
    (logStep message indent : Step σ Unit).FailLast := by
  intro st
  refine ⟨[], ?_, by simp⟩
  unfold logStep
  split <;> simp

theorem failLast_pure {σ α : Type} (a : α) :
    Step.FailLast (fun st => (Settled.resolved a, st) : Step σ α) :=
  fun st => ⟨[], by simp, by simp⟩

theorem failLast_andThen {σ α β : Type} (p : Step σ α) (f : α → Step σ β)
    (hp : p.FailLast) (hf : ∀ a, (f a).FailLast) : (p.andThen f).FailLast := by
  intro st
  obtain ⟨n1, h1, q1⟩ := hp st
  unfold Step.andThen
  rcases hps : p st with ⟨r, st1⟩
  rw [hps] at h1 q1
  cases r with
  | resolved a =>
    obtain ⟨n2, h2, q2⟩ := hf a st1
    refine ⟨n1 ++ n2, ?_, ?_⟩
    · simp only [h2]
      simp only at h1
      rw [h1, List.append_assoc]
    · intro c hc e he hb
      rcases List.mem_append.1 hc with h | h
      · have := (q1 c h e he hb).2
        simp at this
      · obtain ⟨hl, hr⟩ := q2 c h e he hb
        refine ⟨?_, hr⟩
        have hne : n2 ≠ [] := by
          intro h0
          simp [h0] at h
        rw [List.getLast?_append_of_ne_nil _ hne]
        exact hl
  | rejected e => exact ⟨n1, h1, fun c hc e he hb => by simpa using q1 c hc e he hb⟩

theorem failLast_discard {σ α : Type} (p : Step σ α) (hp : p.FailLast) :
    p.discard.FailLast :=
  failLast_andThen p _ hp (fun _ => failLast_pure ())

/-! ## Rules for the reasons of rejection -/

theorem rejectsError_exec_git {σ : Type} (w : World σ) (args : String)
    (cwd : Option String) : (exec_git w args cwd).RejectsError := by
  intro st reason st1 h
  unfold exec_git at h
  cases ho : (w.exec st.world ("git " ++ args) cwd).1 with
  | failed e =>
    simp [ho, settle] at h
    exact ⟨"Error", e.message, h.1.symm, e.nonempty⟩
  | ok out => simp [ho, settle] at h

theorem rejectsError_logStep {σ : Type} (message : JsValue) (indent : Nat) :
    (logStep message indent : Step σ Unit).RejectsError := by
  intro st reason st1 h
  unfold logStep log at h
  cases message with
  | str s => simp at h
  | error n m =>
    simp at h
    exact ⟨"TypeError", "message.split is not a function", h.1.symm, by decide⟩

theorem rejectsError_pure {σ α : Type} (a : α) :
    Step.RejectsError (fun st => (Settled.resolved a, st) : Step σ α) := by
  intro st reason st1 h
  simp at h

theorem rejectsError_andThen {σ α β : Type} (p : Step σ α) (f : α → Step σ β)
    (hp : p.RejectsError) (hf : ∀ a, (f a).RejectsError) : (p.andThen f).RejectsError := by
  intro st reason st1 h
  unfold Step.andThen at h
  rcases hps : p st with ⟨r, st2⟩
  rw [hps] at h
  cases r with
  | resolved a => exact hf a st2 reason st1 h
  | rejected e =>
    simp only [Prod.mk.injEq, Settled.rejected.injEq] at h
    exact hp st reason st2 (by rw [hps, h.1])

theorem rejectsError_orCatch {σ α : Type} (p : Step σ α) (f : JsValue → Step σ α)
    (hf : ∀ e, (f e).RejectsError) : (p.orCatch f).RejectsError := by
  intro st reason st1 h
  unfold Step.orCatch at h
  rcases hps : p st with ⟨r, st2⟩
  rw [hps] at h
  cases r with
  | resolved a => simp at h
  | rejected e => exact hf e st2 reason st1 h

theorem rejectsError_discard {σ α : Type} (p : Step σ α) (hp : p.RejectsError) :
    p.discard.RejectsError :=
  rejectsError_andThen p _ hp (fun _ => rejectsError_pure ())

/-! ## The steps of the reconciliation -/

theorem issues_switchBranch {σ : Type} (w : World σ) (sm : Submodule) :
    (switchBranch w sm).Issues (fun c => isBranchSwitch c.args = true ∧ c.cwd = sm.repo) := by
  unfold switchBranch
  apply issues_orCatch
  · apply issues_andThen
    · apply issues_exec_git
      intro o
      simp [isBranchSwitch]
    · intro a
      apply issues_discard
      apply issues_exec_git
      intro o
      simp only [isBranchSwitch, isCheckout, checkoutCommand]
      split <;> simp
  · intro e
    apply issues_orCatch
    · apply issues_andThen
      · apply issues_exec_git
        intro o
        simp [isBranchSwitch]
      · intro a
        apply issues_discard
        apply issues_exec_git
        intro o
        simp [isBranchSwitch, isCheckout, checkoutCommand]
    · intro _
      apply issues_logStep

theorem failLast_reconcile {σ : Type} (w : World σ) (sm : Submodule) :
    (reconcile w sm).FailLast := by
  have hclone : (clone w sm).discard.FailLast := by
    apply failLast_discard
    apply failLast_andThen
    · apply failLast_logStep
    · intro _
      apply failLast_exec_git
  have hrest : ((checkRemote w sm).andThen (fun _ =>
      (fetchOrigin w sm).andThen (fun _ =>
        (checkBranch w sm).andThen (fun _ => pull w sm)))).FailLast := by
    apply failLast_andThen
    · unfold checkRemote
      apply failLast_andThen
      · apply failLast_exec_git
      · intro url
        split
        · apply failLast_andThen
          · apply failLast_logStep
          · intro _
            apply failLast_discard
            apply failLast_andThen
            · apply failLast_exec_git
            · intro _
              apply failLast_exec_git
        · apply failLast_pure
    · intro _
      apply failLast_andThen
      · apply failLast_andThen
        · apply failLast_logStep
        · intro _
          apply failLast_exec_git
      · intro _
        apply failLast_andThen
        · unfold checkBranch
          apply failLast_andThen
          · apply failLast_exec_git
          · intro cur
            split
            · apply failLast_pure
            · apply failLast_andThen
              · apply failLast_logStep
              · intro _
                apply failLast_of_issues
                exact issues_mono _ _ _ (issues_switchBranch w sm) (fun c h => h.1)
        · intro _
          apply failLast_andThen
          · apply failLast_exec_git
          · intro out
            apply failLast_andThen
            · apply failLast_exec_git
            · intro _
              apply failLast_logStep
  intro st
  unfold reconcile
  split
  · exact hclone st
  · exact hrest st

theorem rejectsError_reconcile {σ : Type} (w : World σ) (sm : Submodule) :
    (reconcile w sm).RejectsError := by
  have hclone : (clone w sm).discard.RejectsError := by
    apply rejectsError_discard
    apply rejectsError_andThen
    · apply rejectsError_logStep
    · intro _
      apply rejectsError_exec_git
  have hrest : ((checkRemote w sm).andThen (fun _ =>
      (fetchOrigin w sm).andThen (fun _ =>
        (checkBranch w sm).andThen (fun _ => pull w sm)))).RejectsError := by
    apply rejectsError_andThen
    · unfold checkRemote
      apply rejectsError_andThen
      · apply rejectsError_exec_git
      · intro url
        split
        · apply rejectsError_andThen
          · apply rejectsError_logStep
          · intro _
            apply rejectsError_discard
            apply rejectsError_andThen
            · apply rejectsError_exec_git
            · intro _
              apply rejectsError_exec_git
        · apply rejectsError_pure
    · intro _
      apply rejectsError_andThen
      · apply rejectsError_andThen
        · apply rejectsError_logStep
        · intro _
          apply rejectsError_exec_git
      · intro _
        apply rejectsError_andThen
        · unfold checkBranch
          apply rejectsError_andThen
          · apply rejectsError_exec_git
          · intro cur
            split
            · apply rejectsError_pure
            · apply rejectsError_andThen
              · apply rejectsError_logStep
              · intro _
                unfold switchBranch
                apply rejectsError_orCatch
                intro err
                apply rejectsError_orCatch
                intro _
                apply rejectsError_logStep
        · intro _
          apply rejectsError_andThen
          · apply rejectsError_exec_git
          · intro out
            apply rejectsError_andThen
            · apply rejectsError_exec_git
            · intro _
              apply rejectsError_logStep
  intro st reason st1 h
  unfold reconcile at h
  split at h
  · exact hclone st reason st1 h
  · exact hrest st reason st1 h

/-! ## The handlers of `processSubmodule` -/

theorem report_issued {σ : Type} (eol : String) (p : Step σ Unit) (st : Run σ) :
    (report eol p st).2.issued = (p st).2.issued := by
  unfold report Step.orCatch Step.andThen logStep
  rcases hps : p st with ⟨r, st1⟩
  cases r with
  | resolved a => rfl
  | rejected e =>
    simp only
    cases hl : log (messageOrError e) 2 st1._logs <;> rfl

theorem report_resolved {σ : Type} (eol : String) (p : Step σ Unit) (st : Run σ) :
    ((report eol p st).1 = .resolved () ↔ (p st).1 = .resolved ()) ∧
    ((p st).1 = .resolved () →
      (report eol p st).2._logs = (p st).2._logs ∧
      (report eol p st).2.console = (p st).2.console ++ [output eol (p st).2._logs]) := by
  unfold report Step.orCatch Step.andThen logStep
  rcases hps : p st with ⟨r, st1⟩
  cases r with
  | resolved a => simp
  | rejected e =>
    simp only
    cases hl : log (messageOrError e) 2 st1._logs <;> simp

theorem report_rejected {σ : Type} (eol : String) (p : Step σ Unit) (st : Run σ)
    (name message : String) (hm : message ≠ "")
    (h : (p st).1 = .rejected (.error name message)) :
    (report eol p st).2._logs = (p st).2._logs ++ logLines message 2 ∧
    (report eol p st).1 = .rejected (.str (output eol (report eol p st).2._logs)) := by
  unfold report Step.orCatch Step.andThen logStep
  rcases hps : p st with ⟨r, st1⟩
  rw [hps] at h
  simp only at h
  subst h
  simp [messageOrError, hm, log]

/-! ## `Promise.all` and the end of the chain -/

theorem promiseAll_rejected_iff {α : Type} (l : List (Settled α)) :
    (∃ reason, promiseAll l = .rejected reason) ↔ ∃ x ∈ l, ∃ reason, x = .rejected reason := by
  induction l with
  | nil => simp [promiseAll]
  | cons x xs ih =>
    cases x with
    | rejected r => simp [promiseAll]
    | resolved a =>
      simp only [promiseAll, List.mem_cons, exists_eq_or_imp]
      cases h : promiseAll xs with
      | resolved v =>
        rw [h] at ih
        simp at ih
        simp
        intro y hy r hr
        exact ih y hy r hr
      | rejected r0 =>
        rw [h] at ih
        simp at ih
        obtain ⟨y, hy, r, hr⟩ := ih
        simp
        exact ⟨y, hy, r, hr⟩

theorem promiseAll_first {α : Type} (pre post : List (Settled α)) (reason : JsValue)
    (hpre : ∀ x ∈ pre, ∃ a, x = .resolved a) :
    promiseAll (pre ++ .rejected reason :: post) = .rejected reason := by
  induction pre with
  | nil => simp [promiseAll]
  | cons x xs ih =>
    obtain ⟨a, ha⟩ := hpre x (by simp)
    subst ha
    have := ih (fun y hy => hpre y (by simp [hy]))
    simp [promiseAll, this]

theorem fleet_stdout {σ : Type} (w : World σ) (eol : String) (start : String → σ)
    (submodules : List (String × String)) :
    (fleet w eol start submodules).stdout =
      ((submodules.map (fun entry =>
        processSubmodule w eol entry.1 entry.2 (start entry.1))).map
          (fun promise => promise.2.console)).flatten := by
  unfold fleet
  simp only
  split <;> rfl

theorem exitCode_of_promiseAll {σ : Type} (w : World σ) (eol : String) (start : String → σ)
    (submodules : List (String × String)) :
    ((fleet w eol start submodules).exitCode = some 1 ↔
      ∃ reason, promiseAll ((submodules.map (fun entry =>
        processSubmodule w eol entry.1 entry.2 (start entry.1))).map
          (fun promise => promise.1)) = .rejected reason) ∧
    ((fleet w eol start submodules).exitCode = none ↔
      ¬ ∃ reason, promiseAll ((submodules.map (fun entry =>
        processSubmodule w eol entry.1 entry.2 (start entry.1))).map
          (fun promise => promise.1)) = .rejected reason) := by
  unfold fleet
  simp only
  split
  · rename_i h
    rw [h]
    simp
  · rename_i r h
    rw [h]
    simp

theorem issues_reconcile {σ : Type} (w : World σ) (sm : Submodule) :
    (reconcile w sm).Issues (Known sm) := by
  have hclone : (clone w sm).discard.Issues (Known sm) := by
    apply issues_discard
    apply issues_andThen
    · apply issues_logStep
    · intro _
      apply issues_exec_git
      intro o
      simp [Known]
  have hrest : ((checkRemote w sm).andThen (fun _ =>
      (fetchOrigin w sm).andThen (fun _ =>
        (checkBranch w sm).andThen (fun _ => pull w sm)))).Issues (Known sm) := by
    apply issues_andThen
    · unfold checkRemote
      apply issues_andThen
      · apply issues_exec_git
        intro o
        simp [Known]
      · intro url
        split
        · apply issues_andThen
          · apply issues_logStep
          · intro _
            apply issues_discard
            apply issues_andThen
            · apply issues_exec_git
              intro o
              simp [Known]
            · intro _
              apply issues_exec_git
              intro o
              simp [Known]
        · apply issues_pure
    · intro _
      apply issues_andThen
      · apply issues_andThen
        · apply issues_logStep
        · intro _
          apply issues_exec_git
          intro o
          simp [Known]
      · intro _
        apply issues_andThen
        · unfold checkBranch
          apply issues_andThen
          · apply issues_exec_git
            intro o
            simp [Known]
          · intro cur
            split
            · apply issues_pure
            · apply issues_andThen
              · apply issues_logStep
              · intro _
                unfold switchBranch
                apply issues_orCatch
                · apply issues_andThen
                  · apply issues_exec_git
                    intro o
                    simp [Known]
                  · intro a
                    apply issues_discard
                    apply issues_exec_git
                    intro o
                    simp only [Known, checkoutCommand]
                    split <;> simp
                · intro e
                  apply issues_orCatch
                  · apply issues_andThen
                    · apply issues_exec_git
                      intro o
                      simp [Known]
                    · intro a
                      apply issues_discard
                      apply issues_exec_git
                      intro o
                      simp [Known, checkoutCommand]
                  · intro _
                    apply issues_logStep
        · intro _
          apply issues_andThen
          · apply issues_exec_git
            intro o
            simp [Known]
          · intro out
            apply issues_andThen
            · apply issues_exec_git
              intro o
              simp [Known]
            · intro _
              apply issues_logStep
  intro st
  unfold reconcile
  split
  · exact hclone st
  · exact hrest st

theorem processSubmodule_issued {σ : Type} (w : World σ) (eol name branch : String) (s : σ) :
    (processSubmodule w eol name branch s).2.issued =
      (reconcile w (newSubmodule name branch) (initialRun name s)).2.issued := by
  unfold processSubmodule
  rw [report_issued]

theorem processSubmodule_rejected {σ : Type} (w : World σ) (eol name branch : String) (s : σ)
    (h : (processSubmodule w eol name branch s).1 ≠ .resolved ()) :
    (processSubmodule w eol name branch s).1 =
      .rejected (.str (output eol (processSubmodule w eol name branch s).2._logs)) := by
  unfold processSubmodule at h ⊢
  cases hr : (reconcile w (newSubmodule name branch) (initialRun name s)).1 with
  | resolved a =>
    exact absurd ((report_resolved eol _ _).1.2 hr) h
  | rejected reason =>
    obtain ⟨n, m, hnm, hm⟩ := rejectsError_reconcile w (newSubmodule name branch)
      (initialRun name s) reason
      (reconcile w (newSubmodule name branch) (initialRun name s)).2 (by rw [← hr])
    subst hnm
    exact (report_rejected eol _ _ n m hm hr).2

/-- C5: for a target `owner/name` with branch `b` whose directory `name` does not exist,
`processSubmodule` issues exactly one command, the recursive clone of the canonical URL at
branch `b`, hence none of the other commands, and it is fulfilled whenever that clone
succeeds. -/
theorem processSubmodule_missing_directory {σ : Type} (w : World σ)
    (eol owner repo branch : String) (s : σ)
    (ho : '/' ∉ owner.data) (hr : '/' ∉ repo.data)
    (hmissing : w.fsExists s (some repo) = false) :
    (processSubmodule w eol (owner ++ "/" ++ repo) branch s).2.issued =
      [⟨"clone --recursive --branch " ++ branch ++ " " ++
          ("git@git.faithlife.dev:" ++ owner ++ "/" ++ repo ++ ".git"), none,
        (w.exec s ("git " ++ ("clone --recursive --branch " ++ branch ++ " " ++
          ("git@git.faithlife.dev:" ++ owner ++ "/" ++ repo ++ ".git"))) none).1⟩] ∧
    ∀ out s1,
      w.exec s ("git " ++ ("clone --recursive --branch " ++ branch ++ " " ++
          ("git@git.faithlife.dev:" ++ owner ++ "/" ++ repo ++ ".git"))) none = (.ok out, s1) →
      (processSubmodule w eol (owner ++ "/" ++ repo) branch s).1 = .resolved () := by
  constructor
  · rw [processSubmodule_issued, newSubmodule_owner_repo owner repo branch ho hr]
    simp only [reconcile, initialRun, hmissing, clone, Step.discard, Step.andThen, logStep, log,
      exec_git, Bool.not_false, if_true, List.nil_append]
    generalize w.exec s ("git " ++ ("clone --recursive --branch " ++ branch ++ " " ++
        ("git@git.faithlife.dev:" ++ owner ++ "/" ++ repo ++ ".git"))) none = r
    rcases r with ⟨o, s1⟩
    cases o <;> simp [settle]
  · intro out s1 h
    unfold processSubmodule
    rw [(report_resolved eol _ _).1, newSubmodule_owner_repo owner repo branch ho hr]
    simp [reconcile, initialRun, hmissing, clone, Step.discard, Step.andThen, logStep, log,
      exec_git, h, settle]

/-- C5, at the input of the specification: `acme/widgets` at `main`, no directory
`widgets`, and a clone that succeeds. -/
theorem processSubmodule_missing_directory_witness :
    (processSubmodule freshClone "\n" "acme/widgets" "main" ()).2.issued =
      [⟨"clone --recursive --branch main git@git.faithlife.dev:acme/widgets.git", none,
        .ok ""⟩] ∧
    (processSubmodule freshClone "\n" "acme/widgets" "main" ()).1 = .resolved () :=
  have h := processSubmodule_missing_directory freshClone "\n" "acme" "widgets" "main" ()
    (by decide) (by decide) rfl
  ⟨h.1.trans (by decide), h.2 "" () rfl⟩

/-- C1 (as stated), refuted: `develop` is checked out, the branch query returns the target
`main`, and the checkout that follows fails: `checkBranch` issues the checkout with `-B`
and `--track`, then `fetch --tags`, then a second checkout. -/
theorem existing_branch_checkout_retried :
    (checkBranch localMainRefused (newSubmodule "acme/widgets" "main")
        (initialRun "acme/widgets" ())).2.issued =
      [⟨"symbolic-ref --short -q HEAD", some "widgets", .ok "develop\n"⟩,
       ⟨"branch --list -q --no-color main", some "widgets", .ok "  main\n"⟩,
       ⟨"checkout -B main --track origin/main", some "widgets", .failed checkoutRefused⟩,
       ⟨"fetch --tags", some "widgets", .ok ""⟩,
       ⟨"checkout main", some "widgets", .ok ""⟩] := by
  decide

/-- C1 (amended): in an existing repository whose current branch differs from the target,
when the branch query returns the target and the checkout issued after it succeeds,
`checkBranch` issues, after the two queries, exactly one command, a checkout, and no
`fetch --tags`, and it is fulfilled. -/
theorem checkBranch_local_branch {σ : Type} (w : World σ) (sm : Submodule) (st : Run σ)
    (head found done : String) (s1 s2 s3 : σ)
    (hhead : w.exec st.world "git symbolic-ref --short -q HEAD" sm.repo = (.ok head, s1))
    (hdiff : trim head ≠ sm.branch)
    (hlist : w.exec s1 ("git " ++ ("branch --list -q --no-color " ++ sm.branch)) sm.repo =
      (.ok found, s2))
    (hlocal : trim found = sm.branch)
    (hdone : w.exec s2
      ("git " ++ checkoutCommand sm.branch (some (decide (trim found = sm.branch)))) sm.repo =
      (.ok done, s3)) :
    ∃ c, (checkBranch w sm st).2.issued = st.issued ++
        [⟨"symbolic-ref --short -q HEAD", sm.repo, .ok head⟩,
         ⟨"branch --list -q --no-color " ++ sm.branch, sm.repo, .ok found⟩, c] ∧
      isCheckout c.args = true ∧ c.args ≠ "fetch --tags" ∧ c.outcome = .ok done ∧
      (checkBranch w sm st).1 = .resolved () := by
  have hhead1 : w.exec st.world ("git " ++ "symbolic-ref --short -q HEAD") sm.repo =
      (.ok head, s1) := hhead
  refine ⟨⟨checkoutCommand sm.branch (some (decide (trim found = sm.branch))), sm.repo,
    .ok done⟩, ?_, ?_, ?_, rfl, ?_⟩
  · simp only [checkBranch, switchBranch, checkoutBranch, Step.andThen, Step.orCatch,
      Step.discard, logStep, log, exec_git, hhead1, settle, hdiff, if_false, hlist, hdone]
    simp
  · simp [isCheckout, checkoutCommand, hlocal]
  · simp [checkoutCommand, hlocal, String.ext_iff]
  · simp only [checkBranch, switchBranch, checkoutBranch, Step.andThen, Step.orCatch,
      Step.discard, logStep, log, exec_git, hhead1, settle, hdiff, if_false, hlist, hdone]

/-- C1 (amended), at an input: `develop` checked out, a local `main`, and a checkout that
succeeds. -/
theorem checkBranch_local_branch_witness :
    ∃ c, (checkBranch localMain (newSubmodule "acme/widgets" "main")
        (initialRun "acme/widgets" ())).2.issued =
        [⟨"symbolic-ref --short -q HEAD", some "widgets", .ok "develop\n"⟩,
         ⟨"branch --list -q --no-color main", some "widgets", .ok "  main\n"⟩, c] ∧
      isCheckout c.args = true ∧ c.args ≠ "fetch --tags" ∧ c.outcome = .ok "" ∧
      (checkBranch localMain (newSubmodule "acme/widgets" "main")
        (initialRun "acme/widgets" ())).1 = .resolved () :=
  checkBranch_local_branch localMain (newSubmodule "acme/widgets" "main")
    (initialRun "acme/widgets" ()) "develop\n" "  main\n" "" () () ()
    (by decide) (by decide) (by decide) (by decide) (by decide)

theorem checkoutCommand_none (branch : String) :
    checkoutCommand branch none = "checkout " ++ branch := rfl

/-- C2 (as stated), refuted: `develop` is checked out and the branch query returns nothing
for the target `main`: `checkBranch` issues the plain `checkout main`, which succeeds, and
neither `fetch --tags` nor a checkout with `-B` and `--track`. -/
theorem missing_branch_plain_checkout :
    (checkBranch remoteMain (newSubmodule "acme/widgets" "main")
        (initialRun "acme/widgets" ())).2.issued =
      [⟨"symbolic-ref --short -q HEAD", some "widgets", .ok "develop\n"⟩,
       ⟨"branch --list -q --no-color main", some "widgets", .ok ""⟩,
       ⟨"checkout main", some "widgets", .ok ""⟩] := by
  decide

/-- C2 (amended): in an existing repository whose current branch differs from the target
and whose branch query does not return the target, when that query fails or the checkout
issued after it fails, `checkBranch` issues `fetch --tags` next, for the first time, and
when this fetch succeeds it issues the plain `checkout <branch>` right after it, as its
last command; when the fetch fails, it is the last command. -/
theorem checkBranch_recovery {σ : Type} (w : World σ) (sm : Submodule) (st : Run σ)
    (head : String) (s1 s2 : σ)
    (hhead : w.exec st.world "git symbolic-ref --short -q HEAD" sm.repo = (.ok head, s1))
    (hdiff : trim head ≠ sm.branch)
    (hfirst :
      (∃ e, w.exec s1 ("git " ++ ("branch --list -q --no-color " ++ sm.branch)) sm.repo =
        (.failed e, s2)) ∨
      (∃ found s e,
        w.exec s1 ("git " ++ ("branch --list -q --no-color " ++ sm.branch)) sm.repo =
          (.ok found, s) ∧
        trim found ≠ sm.branch ∧
        w.exec s
          ("git " ++ checkoutCommand sm.branch (some (decide (trim found = sm.branch))))
          sm.repo = (.failed e, s2))) :
    ∃ before, (checkBranch w sm st).2.issued = st.issued ++ before ++
        ⟨"fetch --tags", sm.repo, (w.exec s2 "git fetch --tags" sm.repo).1⟩ ::
        (match (w.exec s2 "git fetch --tags" sm.repo).1 with
          | .failed _ => []
          | .ok _ =>
            [⟨"checkout " ++ sm.branch, sm.repo,
              (w.exec (w.exec s2 "git fetch --tags" sm.repo).2
                ("git " ++ ("checkout " ++ sm.branch)) sm.repo).1⟩]) ∧
      ∀ c ∈ before, c.args ≠ "fetch --tags" := by
  have hhead1 : w.exec st.world ("git " ++ "symbolic-ref --short -q HEAD") sm.repo =
      (.ok head, s1) := hhead
  have htags1 : w.exec s2 ("git " ++ "fetch --tags") sm.repo =
      w.exec s2 "git fetch --tags" sm.repo := rfl
  rcases hfirst with ⟨e, hlist⟩ | ⟨found, s, e, hlist, hne, hco⟩
  · refine ⟨[⟨"symbolic-ref --short -q HEAD", sm.repo, .ok head⟩,
      ⟨"branch --list -q --no-color " ++ sm.branch, sm.repo, .failed e⟩], ?_, ?_⟩
    · simp only [checkBranch, switchBranch, checkoutBranch, fetchTags, Step.andThen,
        Step.orCatch, Step.discard, logStep, log, exec_git, hhead1, settle, hdiff, if_false,
        hlist, htags1, checkoutCommand_none]
      generalize w.exec s2 "git fetch --tags" sm.repo = t
      rcases t with ⟨ot, s3⟩
      cases ot with
      | failed et => simp
      | ok tags =>
        simp only
        generalize w.exec s3 ("git " ++ ("checkout " ++ sm.branch)) sm.repo = r
        rcases r with ⟨o, s4⟩
        cases o <;> simp
    · simp [String.ext_iff]
  · refine ⟨[⟨"symbolic-ref --short -q HEAD", sm.repo, .ok head⟩,
      ⟨"branch --list -q --no-color " ++ sm.branch, sm.repo, .ok found⟩,
      ⟨checkoutCommand sm.branch (some (decide (trim found = sm.branch))), sm.repo,
        .failed e⟩], ?_, ?_⟩
    · simp only [checkBranch, switchBranch, checkoutBranch, fetchTags, Step.andThen,
        Step.orCatch, Step.discard, logStep, log, exec_git, hhead1, settle, hdiff, if_false,
        hlist, htags1, hco, checkoutCommand_none]
      generalize w.exec s2 "git fetch --tags" sm.repo = t
      rcases t with ⟨ot, s3⟩
      cases ot with
      | failed et => simp
      | ok tags =>
        simp only
        generalize w.exec s3 ("git " ++ ("checkout " ++ sm.branch)) sm.repo = r
        rcases r with ⟨o, s4⟩
        cases o <;> simp
    · simp [String.ext_iff, checkoutCommand, hne]

/-- C2 (amended), at an input: `main` can be checked out only after the tags are fetched;
the first checkout fails, and `fetch --tags` is followed by the plain checkout. -/
theorem checkBranch_recovery_witness :
    ∃ before, (checkBranch mainAfterTags (newSubmodule "acme/widgets" "main")
        (initialRun "acme/widgets" false)).2.issued = before ++
        ⟨"fetch --tags", some "widgets", .ok ""⟩ ::
        [⟨"checkout main", some "widgets", .ok ""⟩] ∧
      ∀ c ∈ before, c.args ≠ "fetch --tags" :=
  checkBranch_recovery mainAfterTags (newSubmodule "acme/widgets" "main")
    (initialRun "acme/widgets" false) "develop\n" false false
    (by decide) (by decide)
    (Or.inr ⟨"", false, unknownPathspec, by decide, by decide, by decide⟩)

/-- C3, the code at the failing input: `develop` is checked out, `main` is unknown, so the
first checkout fails and, after `fetch --tags`, the retried checkout fails too. The handler
hands the caught `Error` object to `submodule.log`, which throws; the original error is not
in the log, `pull` is not issued, and `processSubmodule` is rejected. -/
theorem processSubmodule_failed_recovery :
    (processSubmodule missingMain "\n" "acme/widgets" "main" ()).2.issued =
      [⟨"config --get remote.origin.url", some "widgets",
         .ok "git@git.faithlife.dev:acme/widgets.git\n"⟩,
       ⟨"fetch origin", some "widgets", .ok ""⟩,
       ⟨"symbolic-ref --short -q HEAD", some "widgets", .ok "develop\n"⟩,
       ⟨"branch --list -q --no-color main", some "widgets", .ok ""⟩,
       ⟨"checkout main", some "widgets", .failed unknownPathspec⟩,
       ⟨"fetch --tags", some "widgets", .ok ""⟩,
       ⟨"checkout main", some "widgets", .failed unknownPathspec⟩] ∧
    (checkBranch missingMain (newSubmodule "acme/widgets" "main")
        (initialRun "acme/widgets" ())).1 =
      .rejected (.error "TypeError" "message.split is not a function") ∧
    (processSubmodule missingMain "\n" "acme/widgets" "main" ()).2._logs =
      ["Processing acme/widgets", "  Fetching commits from origin...",
       "  Switching branches from develop to main", "  message.split is not a function"] ∧
    (processSubmodule missingMain "\n" "acme/widgets" "main" ()).1 =
      .rejected (.str ("Processing acme/widgets\n  Fetching commits from origin...\n" ++
        "  Switching branches from develop to main\n  message.split is not a function")) := by
  decide

theorem andThen_issued {σ α β : Type} (p : Step σ α) (f : α → Step σ β) (Q : Issued → Prop)
    (hf : ∀ a, (f a).Issues Q) (st : Run σ) :
    ∃ later, ((p.andThen f) st).2.issued = (p st).2.issued ++ later ∧ ∀ c ∈ later, Q c := by
  unfold Step.andThen
  rcases hps : p st with ⟨r, st1⟩
  cases r with
  | resolved a =>
    obtain ⟨n, hn, hq⟩ := hf a st1
    exact ⟨n, hn, hq⟩
  | rejected e => exact ⟨[], by simp, by simp⟩

theorem isRemoteChange_checkoutCommand (branch : String) (flag : Option Bool) :
    isRemoteChange (checkoutCommand branch flag) = false := by
  unfold checkoutCommand isRemoteChange
  split <;> simp [String.ext_iff, List.isPrefixOf_cons₂]

theorem issues_after_checkRemote {σ : Type} (w : World σ) (sm : Submodule) :
    ((fetchOrigin w sm).andThen (fun _ =>
      (checkBranch w sm).andThen (fun _ => pull w sm))).Issues
        (fun c => isRemoteChange c.args = false) := by
  apply issues_andThen
  · apply issues_andThen
    · apply issues_logStep
    · intro _
      apply issues_exec_git
      intro o
      exact (by decide : isRemoteChange "fetch origin" = false)
  · intro _
    apply issues_andThen
    · unfold checkBranch
      apply issues_andThen
      · apply issues_exec_git
        intro o
        exact (by decide : isRemoteChange "symbolic-ref --short -q HEAD" = false)
      · intro cur
        split
        · apply issues_pure
        · apply issues_andThen
          · apply issues_logStep
          · intro _
            unfold switchBranch
            apply issues_orCatch
            · apply issues_andThen
              · apply issues_exec_git
                intro o
                simp [isRemoteChange, String.ext_iff, List.isPrefixOf_cons₂]
              · intro a
                apply issues_discard
                apply issues_exec_git
                intro o
                dsimp only
                exact isRemoteChange_checkoutCommand _ _
            · intro e
              apply issues_orCatch
              · apply issues_andThen
                · apply issues_exec_git
                  intro o
                  exact (by decide : isRemoteChange "fetch --tags" = false)
                · intro a
                  apply issues_discard
                  apply issues_exec_git
                  intro o
                  dsimp only
                  exact isRemoteChange_checkoutCommand _ _
              · intro _
                apply issues_logStep
    · intro _
      apply issues_andThen
      · apply issues_exec_git
        intro o
        simp [isRemoteChange, String.ext_iff, List.isPrefixOf_cons₂]
      · intro out
        apply issues_andThen
        · apply issues_exec_git
          intro o
          exact (by decide : isRemoteChange "submodule update --init --recursive" = false)
        · intro _
          apply issues_logStep

/-- C6 (as stated), refuted: the origin of an existing repository differs from the
canonical URL and `remote rm origin` fails: the reconciliation stops there, and no
`remote add origin` follows the removal. -/
theorem failed_removal_stops_replacement :
    (processSubmodule staleRemoteLocked "\n" "acme/widgets" "main" ()).2.issued =
      [⟨"config --get remote.origin.url", some "widgets",
         .ok "https://git.faithlife.dev/acme/widgets.git\n"⟩,
       ⟨"remote rm origin", some "widgets", .failed configLocked⟩] := by
  decide

/-- C6 (amended): in an existing repository whose query of the origin URL succeeds, no
`remote rm` or `remote add` is issued when the trimmed output equals the canonical URL
`git@git.faithlife.dev:<owner>/<name>.git`; when it differs, `remote rm origin` is issued
right after the query, `remote add origin <canonical URL>` right after the removal when the
removal succeeds and not at all when it fails, and every later command of the
reconciliation, `fetch origin` among them, is neither of the two. -/
theorem checkRemote_replaces_origin {σ : Type} (w : World σ) (eol owner repo branch : String)
    (s s1 : σ) (current : String)
    (ho : '/' ∉ owner.data) (hr : '/' ∉ repo.data)
    (hexists : w.fsExists s (some repo) = true)
    (hurl : w.exec s "git config --get remote.origin.url" (some repo) = (.ok current, s1)) :
    (trim current = "git@git.faithlife.dev:" ++ owner ++ "/" ++ repo ++ ".git" →
      ∀ c ∈ (processSubmodule w eol (owner ++ "/" ++ repo) branch s).2.issued,
        isRemoteChange c.args = false) ∧
    (trim current ≠ "git@git.faithlife.dev:" ++ owner ++ "/" ++ repo ++ ".git" →
      ∃ later, (processSubmodule w eol (owner ++ "/" ++ repo) branch s).2.issued =
        ⟨"config --get remote.origin.url", some repo, .ok current⟩ ::
        ⟨"remote rm origin", some repo, (w.exec s1 "git remote rm origin" (some repo)).1⟩ ::
        (match (w.exec s1 "git remote rm origin" (some repo)).1 with
          | .failed _ => []
          | .ok _ =>
            [⟨"remote add origin " ++
                ("git@git.faithlife.dev:" ++ owner ++ "/" ++ repo ++ ".git"), some repo,
              (w.exec (w.exec s1 "git remote rm origin" (some repo)).2
                ("git " ++ ("remote add origin " ++
                  ("git@git.faithlife.dev:" ++ owner ++ "/" ++ repo ++ ".git")))
                (some repo)).1⟩]) ++ later ∧
        ∀ c ∈ later, isRemoteChange c.args = false) := by
  have hurl1 : w.exec s ("git " ++ "config --get remote.origin.url") (some repo) =
      (.ok current, s1) := hurl
  have hdec : ∃ later, (processSubmodule w eol (owner ++ "/" ++ repo) branch s).2.issued =
      (checkRemote w (newSubmodule (owner ++ "/" ++ repo) branch)
        (initialRun (owner ++ "/" ++ repo) s)).2.issued ++ later ∧
      ∀ c ∈ later, isRemoteChange c.args = false := by
    rw [processSubmodule_issued]
    have hx : w.fsExists (initialRun (owner ++ "/" ++ repo) s).world
        (newSubmodule (owner ++ "/" ++ repo) branch).repo = true := by
      rw [newSubmodule_owner_repo owner repo branch ho hr]
      exact hexists
    unfold reconcile
    simp only [hx, Bool.not_true, Bool.false_eq_true, if_false]
    exact andThen_issued _ _ _ (fun _ => issues_after_checkRemote w _) _
  obtain ⟨later, hl, hq⟩ := hdec
  rw [newSubmodule_owner_repo owner repo branch ho hr] at hl
  constructor
  · intro heq c hc
    rw [hl] at hc
    simp only [checkRemote, Step.andThen, exec_git, initialRun, hurl1, settle, heq,
      ne_eq, not_true_eq_false, if_false, List.nil_append, List.mem_append,
      List.mem_singleton] at hc
    rcases hc with h | h
    · rw [h]
      exact (by decide : isRemoteChange "config --get remote.origin.url" = false)
    · exact hq c h
  · intro hne
    refine ⟨later, ?_, hq⟩
    rw [hl]
    have hrm : w.exec s1 ("git " ++ "remote rm origin") (some repo) =
        w.exec s1 "git remote rm origin" (some repo) := rfl
    simp only [checkRemote, changeRemoteUrl, Step.andThen, Step.discard, logStep, log,
      exec_git, initialRun, hurl1, settle, hne, ne_eq, not_false_eq_true, if_true,
      List.nil_append, hrm]
    generalize w.exec s1 "git remote rm origin" (some repo) = r
    rcases r with ⟨o, s2⟩
    cases o with
    | failed e => simp
    | ok out =>
      simp only
      generalize w.exec s2 ("git " ++ ("remote add origin " ++
        ("git@git.faithlife.dev:" ++ owner ++ "/" ++ repo ++ ".git"))) (some repo) = r2
      rcases r2 with ⟨o2, s3⟩
      cases o2 <;> simp

/-- C6 (amended), at an input: an HTTPS origin is replaced; the removal and the addition
come right after the query and nothing later is either of them. -/
theorem checkRemote_replaces_origin_witness :
    ∃ later, (processSubmodule staleRemote "\n" "acme/widgets" "main" ()).2.issued =
      ⟨"config --get remote.origin.url", some "widgets",
        .ok "https://git.faithlife.dev/acme/widgets.git\n"⟩ ::
      ⟨"remote rm origin", some "widgets", .ok ""⟩ ::
      [⟨"remote add origin git@git.faithlife.dev:acme/widgets.git", some "widgets",
        .ok ""⟩] ++ later ∧
      ∀ c ∈ later, isRemoteChange c.args = false :=
  (checkRemote_replaces_origin staleRemote "\n" "acme" "widgets" "main" () ()
    "https://git.faithlife.dev/acme/widgets.git\n" (by decide) (by decide) rfl rfl).2
    (by decide)

/-! ## The shape of the calls of each step -/

/-- C9 (as stated), refuted: the identifiers `acme/widgets` and `globex/widgets` are
distinct, yet both reconciliations check the existence of the path `widgets` and run every
one of their commands in the directory `widgets`. -/
theorem distinct_identifiers_same_directory :
    "acme/widgets" ≠ "globex/widgets" ∧
    (newSubmodule "acme/widgets" "main").repo = some "widgets" ∧
    (newSubmodule "globex/widgets" "main").repo = some "widgets" ∧
    (processSubmodule onMain "\n" "acme/widgets" "main" ()).2.issued.map Issued.call =
      [("config --get remote.origin.url", some "widgets"),
       ("remote rm origin", some "widgets"),
       ("remote add origin git@git.faithlife.dev:acme/widgets.git", some "widgets"),
       ("fetch origin", some "widgets"),
       ("symbolic-ref --short -q HEAD", some "widgets"),
       ("pull --rebase origin main", some "widgets"),
       ("submodule update --init --recursive", some "widgets")] ∧
    (processSubmodule onMain "\n" "globex/widgets" "main" ()).2.issued.map Issued.call =
      [("config --get remote.origin.url", some "widgets"),
       ("remote rm origin", some "widgets"),
       ("remote add origin git@git.faithlife.dev:globex/widgets.git", some "widgets"),
       ("fetch origin", some "widgets"),
       ("symbolic-ref --short -q HEAD", some "widgets"),
       ("pull --rebase origin main", some "widgets"),
       ("submodule update --init --recursive", some "widgets")] := by
  decide

/-- C9 (amended): for two identifiers `owner/name` whose name parts differ, the
reconciliations check the existence of different paths, each its own name part, and every
command of one that is given a working directory is given its own name part, so that no
command of the other is given the same one; the only command without a working directory
is the clone, which runs in the directory of the process. -/
theorem working_directories_distinct {σ : Type} (w : World σ) (eol : String)
    (owner1 repo1 branch1 owner2 repo2 branch2 : String) (s1 s2 : σ)
    (ho1 : '/' ∉ owner1.data) (hr1 : '/' ∉ repo1.data)
    (ho2 : '/' ∉ owner2.data) (hr2 : '/' ∉ repo2.data)
    (hne : repo1 ≠ repo2) :
    (newSubmodule (owner1 ++ "/" ++ repo1) branch1).repo = some repo1 ∧
    (newSubmodule (owner2 ++ "/" ++ repo2) branch2).repo = some repo2 ∧
    (∀ c1 ∈ (processSubmodule w eol (owner1 ++ "/" ++ repo1) branch1 s1).2.issued,
      ∀ c2 ∈ (processSubmodule w eol (owner2 ++ "/" ++ repo2) branch2 s2).2.issued,
        (c1.cwd = some repo1 ∨
          c1.cwd = none ∧ "clone ".data.isPrefixOf c1.args.data = true) ∧
        (c2.cwd = some repo2 ∨
          c2.cwd = none ∧ "clone ".data.isPrefixOf c2.args.data = true) ∧
        (c1.cwd ≠ none → c1.cwd ≠ c2.cwd)) := by
  have key : ∀ (owner repo branch : String) (s : σ), '/' ∉ owner.data → '/' ∉ repo.data →
      ∀ c ∈ (processSubmodule w eol (owner ++ "/" ++ repo) branch s).2.issued,
        c.cwd = some repo ∨ c.cwd = none ∧ "clone ".data.isPrefixOf c.args.data = true := by
    intro owner repo branch s ho hr c hc
    rw [processSubmodule_issued] at hc
    obtain ⟨new, hn, hq⟩ := issues_reconcile w (newSubmodule (owner ++ "/" ++ repo) branch)
      (initialRun (owner ++ "/" ++ repo) s)
    rw [hn] at hc
    simp only [initialRun, List.nil_append] at hc
    have hk := hq c hc
    rw [newSubmodule_owner_repo owner repo branch ho hr] at hk
    rcases hk with ⟨h1, h2⟩ | ⟨h1, _⟩
    · right
      refine ⟨h1, ?_⟩
      rw [h2]
      simp [String.data_append]
    · left
      exact h1
  refine ⟨by rw [newSubmodule_owner_repo owner1 repo1 branch1 ho1 hr1],
    by rw [newSubmodule_owner_repo owner2 repo2 branch2 ho2 hr2], ?_⟩
  intro c1 hc1 c2 hc2
  have k1 := key owner1 repo1 branch1 s1 ho1 hr1 c1 hc1
  have k2 := key owner2 repo2 branch2 s2 ho2 hr2 c2 hc2
  refine ⟨k1, k2, ?_⟩
  intro hsome heq
  rcases k1 with h1 | ⟨h1, _⟩
  · rcases k2 with h2 | ⟨h2, _⟩
    · rw [h1, h2] at heq
      exact hne (Option.some.inj heq)
    · rw [h1, h2] at heq
      cases heq
  · exact hsome h1

/-- C9 (amended), at an input: `fetch origin` is issued for `acme/widgets` and for
`acme/gadgets`, in different directories. -/
theorem working_directories_distinct_witness :
    (⟨"fetch origin", some "widgets", .ok ""⟩ : Issued) ∈
      (processSubmodule onMain "\n" "acme/widgets" "main" ()).2.issued ∧
    (⟨"fetch origin", some "gadgets", .ok ""⟩ : Issued) ∈
      (processSubmodule onMain "\n" "acme/gadgets" "main" ()).2.issued ∧
    (⟨"fetch origin", some "widgets", .ok ""⟩ : Issued).cwd ≠
      (⟨"fetch origin", some "gadgets", .ok ""⟩ : Issued).cwd :=
  ⟨by decide, by decide,
    ((working_directories_distinct onMain "\n" "acme" "widgets" "main" "acme" "gadgets" "main"
      () () (by decide) (by decide) (by decide) (by decide) (by decide)).2.2
        ⟨"fetch origin", some "widgets", .ok ""⟩ (by decide)
        ⟨"fetch origin", some "gadgets", .ok ""⟩ (by decide)).2.2 (by decide)⟩

/-- C4 (as stated), refuted: when the clones of two repositories both fail, the program
writes a single line, the log of the first one, and the log that the reconciliation of the
second one has accumulated is printed nowhere. -/
theorem fleet_second_failure_not_printed :
    (processSubmodule bothClonesFail "\n" "acme/two" "main" ()).1 =
      .rejected (.str ("Processing acme/two\n  Directory two does not exist; cloning it.\n" ++
        "  fatal: repository not found")) ∧
    fleet bothClonesFail "\n" (fun _ => ()) [("acme/one", "main"), ("acme/two", "main")] =
      { stdout := [],
        stderr := ["\x1b[31mError: Processing acme/one\n" ++
          "  Directory one does not exist; cloning it.\n  fatal: repository not found\x1b[0m"],
        exitCode := some 1 } ∧
    ¬ (fleet bothClonesFail "\n" (fun _ => ())
        [("acme/one", "main"), ("acme/two", "main")]).printed
      (output "\n" (processSubmodule bothClonesFail "\n" "acme/two" "main" ()).2._logs) := by
  refine ⟨by decide, by decide, ?_⟩
  unfold Process.printed
  decide

theorem printed_of_mem_stdout (p : Process) (text : String) (h : text ∈ p.stdout) :
    p.printed text :=
  ⟨text, List.mem_append_left _ h, List.infix_refl _⟩

theorem printed_of_mem_stderr (p : Process) (before text after : String)
    (h : before ++ text ++ after ∈ p.stderr) : p.printed text :=
  ⟨before ++ text ++ after, List.mem_append_right _ h,
    ⟨before.data, after.data, by simp [String.data_append]⟩⟩

/-- C4 (amended): once the reconciliations have settled, the program has printed the log of
every repository whose reconciliation was fulfilled, with `console.log`, and, when some
reconciliation was rejected, the log of the first one to be rejected, with `console.error`,
after `Error: ` and between the colour codes. -/
theorem fleet_prints_logs {σ : Type} (w : World σ) (eol : String) (start : String → σ)
    (submodules : List (String × String)) :
    (∀ entry ∈ submodules,
      (processSubmodule w eol entry.1 entry.2 (start entry.1)).1 = .resolved () →
      output eol (processSubmodule w eol entry.1 entry.2 (start entry.1)).2._logs ∈
        (fleet w eol start submodules).stdout ∧
      (fleet w eol start submodules).printed
        (output eol (processSubmodule w eol entry.1 entry.2 (start entry.1)).2._logs)) ∧
    (∀ pre entry post, submodules = pre ++ entry :: post →
      (∀ x ∈ pre, (processSubmodule w eol x.1 x.2 (start x.1)).1 = .resolved ()) →
      (processSubmodule w eol entry.1 entry.2 (start entry.1)).1 ≠ .resolved () →
      "\x1b[31mError: " ++
          output eol (processSubmodule w eol entry.1 entry.2 (start entry.1)).2._logs ++
          "\x1b[0m" ∈ (fleet w eol start submodules).stderr ∧
      (fleet w eol start submodules).printed
        (output eol (processSubmodule w eol entry.1 entry.2 (start entry.1)).2._logs)) := by
  constructor
  · intro entry he hres
    have hmem : output eol (processSubmodule w eol entry.1 entry.2 (start entry.1)).2._logs ∈
        (fleet w eol start submodules).stdout := by
      rw [fleet_stdout]
      simp only [List.mem_flatten, List.mem_map]
      refine ⟨_, ⟨_, ⟨entry, he, rfl⟩, rfl⟩, ?_⟩
      unfold processSubmodule at hres ⊢
      have h := (report_resolved eol (reconcile w (newSubmodule entry.1 entry.2))
        (initialRun entry.1 (start entry.1)))
      have h2 := h.2 (h.1.1 hres)
      rw [h2.2, h2.1]
      simp
    exact ⟨hmem, printed_of_mem_stdout _ _ hmem⟩
  · intro pre entry post hsub hpre hrej
    have hr := processSubmodule_rejected w eol entry.1 entry.2 (start entry.1) hrej
    have hall : promiseAll ((submodules.map (fun entry =>
        processSubmodule w eol entry.1 entry.2 (start entry.1))).map
          (fun promise => promise.1)) = .rejected (.str (output eol
            (processSubmodule w eol entry.1 entry.2 (start entry.1)).2._logs)) := by
      rw [hsub]
      simp only [List.map_append, List.map_cons]
      rw [hr]
      apply promiseAll_first
      intro x hx
      simp only [List.mem_map] at hx
      obtain ⟨y, ⟨z, hz, rfl⟩, rfl⟩ := hx
      exact ⟨(), hpre z hz⟩
    have hmem : "\x1b[31mError: " ++
        output eol (processSubmodule w eol entry.1 entry.2 (start entry.1)).2._logs ++
        "\x1b[0m" ∈ (fleet w eol start submodules).stderr := by
      unfold fleet
      simp only
      rw [hall]
      simp only [errorText, List.mem_singleton]
      have hlit : "\x1b[31mError: " = "\x1b[31m" ++ "Error: " := by decide
      rw [hlit, String.append_assoc "\x1b[31m" "Error: "]
    exact ⟨hmem, printed_of_mem_stderr _ _ _ _ hmem⟩

/-- C4 (amended), at an input: of two failing clones, the log of the first is printed. -/
theorem fleet_prints_logs_witness :
    (fleet bothClonesFail "\n" (fun _ => ())
        [("acme/one", "main"), ("acme/two", "main")]).printed
      (output "\n" (processSubmodule bothClonesFail "\n" "acme/one" "main" ()).2._logs) :=
  ((fleet_prints_logs bothClonesFail "\n" (fun _ => ())
    [("acme/one", "main"), ("acme/two", "main")]).2 [] ("acme/one", "main")
    [("acme/two", "main")] rfl (by simp) (by decide)).2

/-- C8: given a configuration with a submodules mapping, the fleet run sets the exit code
to 1 exactly when the reconciliation of at least one repository is rejected, and leaves it
unset (the successful exit) exactly when every reconciliation is fulfilled. -/
theorem fleet_exitCode {σ : Type} (w : World σ) (eol : String) (start : String → σ)
    (submodules : List (String × String)) :
    ((fleet w eol start submodules).exitCode = some 1 ↔
      ∃ entry ∈ submodules, ∃ reason,
        (processSubmodule w eol entry.1 entry.2 (start entry.1)).1 = .rejected reason) ∧
    ((fleet w eol start submodules).exitCode = none ↔
      ∀ entry ∈ submodules,
        (processSubmodule w eol entry.1 entry.2 (start entry.1)).1 = .resolved ()) := by
  have key := promiseAll_rejected_iff ((submodules.map (fun entry =>
        processSubmodule w eol entry.1 entry.2 (start entry.1))).map
          (fun promise => promise.1))
  have hmem : (∃ x ∈ (submodules.map (fun entry =>
        processSubmodule w eol entry.1 entry.2 (start entry.1))).map
          (fun promise => promise.1), ∃ reason, x = Settled.rejected reason) ↔
      ∃ entry ∈ submodules, ∃ reason,
        (processSubmodule w eol entry.1 entry.2 (start entry.1)).1 = .rejected reason := by
    simp only [List.map_map, List.mem_map, Function.comp]
    constructor
    · rintro ⟨x, ⟨entry, he, rfl⟩, r, hr⟩
      exact ⟨entry, he, r, hr⟩
    · rintro ⟨entry, he, r, hr⟩
      exact ⟨_, ⟨entry, he, rfl⟩, r, hr⟩
  obtain ⟨h1, h2⟩ := exitCode_of_promiseAll w eol start submodules
  refine ⟨h1.trans (key.trans hmem), h2.trans ?_⟩
  rw [key, hmem]
  constructor
  · intro h entry he
    cases hr : (processSubmodule w eol entry.1 entry.2 (start entry.1)).1 with
    | resolved a => rfl
    | rejected r => exact absurd ⟨entry, he, r, hr⟩ h
  · rintro h ⟨entry, he, r, hr⟩
    rw [h entry he] at hr
    cases hr

/-- C10: when a command outside the branch switch fails (clone, the query of the remote
URL, `remote rm`, `remote add`, `fetch origin`, the query of HEAD, `pull` or the submodule
update), it is the last command issued for the repository, and `processSubmodule` is
rejected with the text of the log, which consists of the lines logged up to the failure
followed by every line of the error message behind two spaces. -/
theorem processSubmodule_failure_outside_branch_switch {σ : Type} (w : World σ)
    (eol name branch : String) (s : σ) (c : Issued) (e : ExecError)
    (hc : c ∈ (processSubmodule w eol name branch s).2.issued)
    (hfail : c.outcome = .failed e)
    (houtside : isBranchSwitch c.args = false) :
    (processSubmodule w eol name branch s).2.issued.getLast? = some c ∧
    (processSubmodule w eol name branch s).2._logs =
      (reconcile w (newSubmodule name branch) (initialRun name s)).2._logs ++
        (splitLines e.message).map (fun line => "  " ++ line) ∧
    (processSubmodule w eol name branch s).1 =
      .rejected (.str (eol.intercalate (processSubmodule w eol name branch s).2._logs)) := by
  obtain ⟨new, hn, q⟩ := failLast_reconcile w (newSubmodule name branch) (initialRun name s)
  have hi : (processSubmodule w eol name branch s).2.issued = new := by
    unfold processSubmodule
    rw [report_issued, hn]
    simp [initialRun]
  rw [hi] at hc
  obtain ⟨hlast, hrej⟩ := q c hc e hfail houtside
  obtain ⟨hlogs, hres⟩ := report_rejected eol (reconcile w (newSubmodule name branch))
    (initialRun name s) "Error" e.message e.nonempty hrej
  refine ⟨by rw [hi]; exact hlast, ?_, ?_⟩
  · unfold processSubmodule
    rw [hlogs]
    rfl
  · unfold processSubmodule
    rw [hres]
    rfl

/-- C10, at an input: `fetch origin` fails in an existing repository. -/
theorem processSubmodule_failure_outside_branch_switch_witness :
    (processSubmodule fetchFails "\n" "acme/widgets" "main" ()).2.issued.getLast? =
      some ⟨"fetch origin", some "widgets", .failed remoteDown⟩ ∧
    (processSubmodule fetchFails "\n" "acme/widgets" "main" ()).2._logs =
      ["Processing acme/widgets", "  Fetching commits from origin...",
        "  fatal: unable to access", "  the remote"] ∧
    (processSubmodule fetchFails "\n" "acme/widgets" "main" ()).1 =
      .rejected (.str ("Processing acme/widgets\n  Fetching commits from origin...\n" ++
        "  fatal: unable to access\n  the remote")) :=
  have h := processSubmodule_failure_outside_branch_switch fetchFails "\n" "acme/widgets"
    "main" () ⟨"fetch origin", some "widgets", .failed remoteDown⟩ remoteDown
    (by decide) rfl (by decide)
  ⟨h.1, h.2.1.trans (by decide), h.2.2.trans (by decide)⟩

end CloneLeeroy
